import Mathlib

/-!
# Verification of the flinux signal / VFS core

A shallow embedding, in Lean 4, of the core algorithms of
`src/syscall/sig.c` (signal subsystem and virtual file system of the
flinux Linux-personality emulator), together with proofs of the
specification's testable properties.

Conventions of the embedding:
* C strings become `List Char` (NUL-free byte strings).
* Machine integers become `Nat` / `Int`; signal sets (`sigset_t`,
  a 64-bit word) become `Nat` with bitwise operations, complement taken
  explicitly against the 64-bit all-ones word.
* Buffer-mutating C loops become structurally recursive functions on
  lists; pointer offsets become `Nat` indices.
* Fallible operations return `Int` error codes (negated errno) exactly
  as the source does; external collaborators (filesystem drivers, the
  memory manager's pointer checks) become explicit parameters.
-/

/- ### Constants

The numeric constants below come from headers of the repository that are
not part of the excerpted source (`common/errno.h`, `common/signal.h`,
`common/fcntl.h`, `syscall/vfs.h`).  They carry the standard Linux x86
ABI values; none of the theorems depends on the particular numbers. -/

def ENOENT : Int := 2
def ESRCH : Int := 3
def EBADF : Int := 9
def EFAULT : Int := 14
def EINVAL : Int := 22
def EMFILE : Int := 24
def ELOOP : Int := 40

def SIGHUP : Int := 1
def SIGINT : Int := 2
def SIGQUIT : Int := 3
def SIGILL : Int := 4
def SIGABRT : Int := 6
def SIGFPE : Int := 8
def SIGKILL : Int := 9
def SIGUSR1 : Int := 10
def SIGSEGV : Int := 11
def SIGUSR2 : Int := 12
def SIGPIPE : Int := 13
def SIGALRM : Int := 14
def SIGTERM : Int := 15
def SIGCHLD : Int := 17
def SIGSTOP : Int := 19

/-- Number of signals; signal numbers range over `0 ..= _NSIG - 1`. -/
def NSIG : Nat := 64

def SIG_BLOCK : Int := 0
def SIG_UNBLOCK : Int := 1
def SIG_SETMASK : Int := 2

/-- `sizeof(sigset_t)`: the signal set is a 64-bit word. -/
def sizeof_sigset_t : Nat := 8

def O_CLOEXEC : Int := 0x80000
def O_DIRECT : Int := 0x4000
def O_NONBLOCK : Int := 0x800

/-- Size of the file-descriptor table (`syscall/vfs.h`). -/
def MAX_FD_COUNT : Nat := 1024

/-- Depth cap of the symlink resolver loops (`syscall/vfs.h`). -/
def MAX_SYMLINK_LEVEL : Nat := 8

/- ### Signal sets

flinux's `sigset_t` is a 64-bit word; `sigismember`/`sigaddset`/
`sigdelset` test and set single bits (the worker's `DELIVER` loop
iterates `i` over `0 .. _NSIG-1` and feeds `i` directly to
`sigismember`, so bit `i` stands for signal `i`). -/

def sigismember (s : Nat) (signo : Nat) : Bool := s.testBit signo

def sigaddset (s : Nat) (signo : Nat) : Nat := s ||| (2 ^ signo)

def sigdelset (s : Nat) (signo : Nat) : Nat := s &&& (((2 : Nat) ^ 64 - 1) ^^^ (2 ^ signo))

/-- Bitwise complement of a 64-bit word, as computed by C's `~` on
`sigset_t`. -/
def bitNot64 (m : Nat) : Nat := m ^^^ ((2 : Nat) ^ 64 - 1)

/-- C's `&` on 32-bit `int` flag words (two's-complement bit
patterns). -/
def land32 (a b : Int) : Nat :=
  (a % (2 : Int) ^ 32).toNat &&& (b % (2 : Int) ^ 32).toNat

/- ### Path normaliser (`normalize_path`, sig.c lines 929-987)

The C routine writes into an output buffer through a cursor `p`; here
the buffer content up to the cursor is the list `out`.  The character
loop of the source inspects, at each round, exactly the maximal run of
non-`/` characters at the head of the remaining input (the next
component), so the embedding consumes the input component-wise:
* `comp = []`   — `pathname[0] == '/'`:   skip one slash;
* `comp = "."`  with more input — `"./"`: skip both characters;
* `comp = "."`  at the end: append the dot literally;
* `comp = ".."` — `p--; while (p > out && p[-1] != '/') p--;`
  (pop one output character, then pop up to and excluding the previous
  slash); followed by consuming 2 or 3 input characters;
* otherwise — copy the component and its trailing slash if present.
-/

/-- The `..` branch of `normalize_path`: `p--` then
`while (p > out && p[-1] != '/') p--`.  (When `out` is empty the C
cursor would move below the buffer; the callers' buffers always start
with at least one character, and the only boundary case exercised by
the theorems is `p` reaching `out` itself, which the source handles by
the `p > out` guard and which this embedding renders exactly.) -/
def popComponent (out : List Char) : List Char :=
  ((out.dropLast).reverse.dropWhile (fun c => c ≠ '/')).reverse

/-- The character loop of `normalize_path`.  The first argument is
`true` while the cursor is inside the inner copying loop of the final
`else` branch (`while (*pathname && *pathname != '/') *p++ = *pathname++;`
followed by copying the single `/`), and `false` at the top of the
outer `while (pathname[0])` loop. -/
def normLoop : Bool → List Char → List Char → List Char
  | _, [], out => out
  | true, '/' :: rest, out => normLoop false rest (out ++ ['/'])
  | true, c :: rest, out => normLoop true rest (out ++ [c])
  | false, '/' :: rest, out => normLoop false rest out
  | false, ['.'], out => out ++ ['.']            -- trailing "." is preserved
  | false, '.' :: '/' :: rest, out => normLoop false rest out
  | false, ['.', '.'], out => popComponent out
  | false, '.' :: '.' :: '/' :: rest, out => normLoop false rest (popComponent out)
  | false, c :: rest, out => normLoop true rest (out ++ [c])

/-- `normalize_path(current, pathname, out)` (sig.c lines 929-987).
`current` and the output may alias in C; the alias case copies the very
same characters, so one pure function covers both call shapes.  The
final statement of the C function clears the trailing slash unless the
whole output is exactly `"/"`. -/
def normalize_path (current pathname : List Char) : List Char :=
  let start : List Char × List Char :=
    match pathname with
    | '/' :: rest => (['/'], rest)
    | rest =>
      (if current.getLast? = some '/' then current else current ++ ['/'], rest)
  let out := normLoop false start.2 start.1
  if 1 < out.length ∧ out.getLast? = some '/' then out.dropLast else out

/-- Normal-form check for the tail of an absolute path (everything
after the leading `/`), in the sense of the specification's data model
(§3): components are non-empty, contain no `/`, are not `..`, and are
not `.` except for a possibly trailing `.`; no trailing `/`.  The
`Bool` argument is `true` inside a component and `false` directly
after a `/`, mirroring the cursor modes of `normLoop`. -/
def isNormalTail : Bool → List Char → Bool
  | true, [] => true
  | true, '/' :: rest => isNormalTail false rest
  | true, _ :: rest => isNormalTail true rest
  | false, [] => false
  | false, '/' :: _ => false
  | false, ['.'] => true
  | false, '.' :: '/' :: _ => false
  | false, ['.', '.'] => false
  | false, '.' :: '.' :: '/' :: _ => false
  | false, _ :: rest => isNormalTail true rest

/-- A path in the normal form the specification's §3 data model
describes for normalised guest paths: a leading `/` followed by a
normal tail (or nothing, for the root itself). -/
def isNormalizedPath : List Char → Bool
  | '/' :: rest => rest.isEmpty || isNormalTail false rest
  | _ => false

/- ### Filesystem registry and the symlink-aware resolver
(`find_filesystem`, `resolve_symlink`, `vfs_open`; sig.c lines 905-1133)

A filesystem driver is an external collaborator: a mountpoint plus
optional `open` and `readlink` operations.  `open` returns `0` on
success, `1` with a target when the leaf is a symlink, or a negative
errno; `readlink` returns the target string or a negative errno. -/

/-- Result of a driver's `open` operation. -/
inductive OpenRes where
  | success
  | symlink (target : List Char)
  | err (e : Int)
deriving DecidableEq

/-- Result of a driver's `readlink` operation: the written target
(`r >= 0` with `r` characters written) or a negative errno. -/
inductive ReadlinkRes where
  | ok (target : List Char)
  | err (e : Int)
deriving DecidableEq

/-- A `struct file_system`: the mount entry plus the two vtable slots
the resolver consumes (absent slots are `none`, as in the source where
the function pointers may be NULL).  The `open` slot receives the
subpath, `flags` and `mode`. -/
structure file_system where
  mountpoint : List Char
  fsopen : Option (List Char → Int → Int → OpenRes)
  readlink : Option (List Char → ReadlinkRes)

/-- The matching walk of `find_filesystem`:
`while (*p && *p == *subpath) { p++; subpath++; } if (*p == 0) ...`.
Returns the remaining path when the whole mountpoint was consumed. -/
def stripMountpoint : List Char → List Char → Option (List Char)
  | [], subpath => some subpath
  | _ :: _, [] => none
  | p :: ps, s :: ss => if p = s then stripMountpoint ps ss else none

/-- `find_filesystem(path, &fs, &subpath)` (sig.c lines 905-927) over
the registry list (`vfs->fs_first`, head = most recently added entry).
On a match the subpath additionally loses one leading `/`. -/
def find_filesystem (fss : List file_system) (path : List Char) :
    Option (file_system × List Char) :=
  match fss with
  | [] => none
  | fs :: rest =>
    match stripMountpoint fs.mountpoint path with
    | some subpath =>
      some (fs, if subpath.head? = some '/' then subpath.tail else subpath)
    | none => find_filesystem rest path

/-- The registry lookup as §4.2 of the specification words it: the
first entry whose mountpoint is a string prefix of `path`; `subpath` is
`path` with the mountpoint stripped and any leading `/` removed. -/
def find_filesystem_spec (fss : List file_system) (path : List Char) :
    Option (file_system × List Char) :=
  match fss.find? (fun fs => fs.mountpoint.isPrefixOf path) with
  | some fs =>
    let sub := path.drop fs.mountpoint.length
    some (fs, if sub.head? = some '/' then sub.tail else sub)
  | none => none

/-- `while (p[-1] != '/') p--;` starting the cursor at index `j` of
`path`: the least position at or below `j` whose left neighbour is a
slash.  (The source has no lower bound; every path it scans starts with
`/`, which stops the cursor.  The embedding clamps at 0.) -/
def basenameStart (path : List Char) : Nat → Nat
  | 0 => 0
  | j + 1 => if path.getD j ' ' = '/' then j + 1 else basenameStart path j

/-- `char *p = path + strlen(path) - 1; while (*p != '/') p--;` of the
leaf-symlink branch of `vfs_open`: index of the last slash at or below
index `j`.  (Clamped at 0; position 0 of every scanned path is `/`.) -/
def scanLastSlash (path : List Char) : Nat → Nat
  | 0 => 0
  | j + 1 => if path.getD (j + 1) ' ' = '/' then j + 1 else scanLastSlash path j

/-- The scanning loop of `resolve_symlink` (sig.c lines 993-1044).
`so` is the offset of `subpath` inside `path`; the loop cursor examines
index `i` of the subpath (positions `strlen(subpath)-1` down to `1`,
exclusive of `0` by the `p > subpath` guard).  At each slash the
subpath is truncated there and handed to `readlink`; on the first
success the symlink target `t` is joined with the remaining components
(`t + "/" + subpath[i+1..]`), the symlink's basename is removed from
`path`, and the two are renormalised (the source aliases output and
first argument of `normalize_path` here). -/
def resolveScan (rl : List Char → ReadlinkRes) (path : List Char) (so : Nat) :
    Nat → Except Int (List Char)
  | 0 => Except.error (-ENOENT)        -- no component was a symlink
  | i + 1 =>
    let subpath := path.drop so
    if subpath.getD (i + 1) ' ' = '/' then
      match rl (subpath.take (i + 1)) with
      | ReadlinkRes.ok t =>
        let rel := t ++ '/' :: subpath.drop (i + 2)
        let j := basenameStart path (so + i + 1)
        Except.ok (normalize_path (path.take j) rel)
      | ReadlinkRes.err e =>
        if e = -ENOENT then resolveScan rl path so i else Except.error e
    else resolveScan rl path so i

/-- `resolve_symlink(fs, path, subpath, target)`: fails with `-ENOENT`
when the driver has no `readlink`, otherwise scans the subpath right to
left.  Successful resolution returns the rewritten `path`. -/
def resolve_symlink (fs : file_system) (path : List Char) (so : Nat) :
    Except Int (List Char) :=
  match fs.readlink with
  | none => Except.error (-ENOENT)
  | some rl => resolveScan rl path so ((path.drop so).length - 1)

/-- Outcome of one iteration of the `vfs_open` resolver loop: either a
final return value or a rewritten path for the next iteration. -/
inductive Step where
  | done (r : Int)
  | cont (path : List Char)
deriving DecidableEq

/-- One iteration of the `for (symlink_level...)` body of `vfs_open`
(sig.c lines 1092-1131), after the depth-cap check. -/
def vfs_open_step (fss : List file_system) (flags mode : Int)
    (path : List Char) : Step :=
  match find_filesystem fss path with
  | none => Step.done (-ENOENT)
  | some (fs, subpath) =>
    match fs.fsopen with
    | none => Step.done (-ENOENT)
    | some fsopen =>
      match fsopen (if subpath = [] then ['.'] else subpath) flags mode with
      | OpenRes.success => Step.done 0
      | OpenRes.symlink target =>
        -- remove the basename, keeping the slash, then renormalise
        let path' := path.take (scanLastSlash path (path.length - 1) + 1)
        Step.cont (normalize_path path' target)
      | OpenRes.err e =>
        if e = -ENOENT then
          match resolve_symlink fs path (path.length - subpath.length) with
          | Except.ok path' => Step.cont path'
          | Except.error _ => Step.done (-ENOENT)
        else Step.done e

/-- The `vfs_open` resolver loop with the remaining iteration budget
explicit: `symlink_level == MAX_SYMLINK_LEVEL` at the loop head is
`fuel = 0` here. -/
def vfs_open_loop (fss : List file_system) (flags mode : Int) :
    Nat → List Char → Int
  | 0, _ => -ELOOP
  | fuel + 1, path =>
    match vfs_open_step fss flags mode path with
    | Step.done r => r
    | Step.cont path' => vfs_open_loop fss flags mode fuel path'

/-- `vfs_open(pathname, flags, mode, &f)` (sig.c lines 1046-1133).  The
unsupported-flags and `mode != 0` checks only log (their `EINVAL`
returns are commented out), and `normalize_path` always returns 1, so
the function is the normalisation followed by the resolver loop. -/
def vfs_open (fss : List file_system) (cwd pathname : List Char)
    (flags mode : Int) : Int :=
  vfs_open_loop fss flags mode MAX_SYMLINK_LEVEL (normalize_path cwd pathname)

/-- `k`-fold composition of the resolver step from a starting path:
`stepN ... k` is the state of the resolution after `k` iterations,
`Step.cont q` standing for "still resolving, current path `q`". -/
def stepN (fss : List file_system) (flags mode : Int) (path : List Char) :
    Nat → Step
  | 0 => Step.cont path
  | k + 1 =>
    match vfs_open_step fss flags mode path with
    | Step.done r => Step.done r
    | Step.cont path' => stepN fss flags mode path' k

/- ### Signal core (`struct signal_data` and the signal syscalls,
sig.c lines 36-577)

The observable side effects of the signal routines — packets written to
the signal pipe, context rewriting of the main thread, process exit —
are collected in an event list.  Guest-pointer arguments appear as
`Option` values (`none` = NULL); the `mm_check_*` validations are
modelled as passing, matching the claims, which all concern valid
arguments. -/

/-- `sa_handler`: `SIG_DFL`, `SIG_IGN`, or a user handler address. -/
inductive sighandler where
  | dfl
  | ign
  | custom (addr : Nat)
deriving DecidableEq

/-- `struct sigaction` (guest layout fields the core reads). -/
structure sigaction where
  sa_handler : sighandler
  sa_mask : Nat
  sa_flags : Int
  sa_restorer : Nat
deriving DecidableEq

/-- The all-defaults action table entry installed by `signal_init`. -/
def sigaction0 : sigaction := ⟨sighandler.dfl, 0, 0, 0⟩

/-- `siginfo_t` (the three fields the core fills in). -/
structure siginfo where
  si_signo : Int
  si_code : Int
  si_errno : Int
deriving DecidableEq

/-- Observable actions of the signal core. -/
inductive SigEvent where
  | deliverPacket                 -- a SIGNAL_PACKET_DELIVER written to the pipe
  | contextDeliver (i : siginfo)  -- dbt_deliver_signal on the main thread
  | exitProcess                   -- ExitProcess from the default handler
deriving DecidableEq

/-- The signal-state fields of `struct signal_data` (the handles and
the mutex are concurrency plumbing; all the mutations below happen in
the source under `signal->mutex`). -/
structure signal_data where
  actions : List sigaction        -- indexed by signal number, length _NSIG
  mask : Nat
  pending : Nat
  info : List siginfo             -- pending siginfo per signal number
  current_siginfo : siginfo
  can_accept_signal : Bool
deriving DecidableEq

/-- `send_pending_signal` (sig.c lines 346-354): with the mutex held,
write one `DELIVER` packet iff `signal->pending & ~signal->mask` is
non-empty. -/
def send_pending_signal (st : signal_data) : List SigEvent :=
  if st.pending &&& bitNot64 st.mask ≠ 0 then [SigEvent.deliverPacket] else []

/-- `signal_default_handler` (sig.c lines 102-122): the listed signals
terminate the process, everything else is ignored. -/
def signal_default_handler (i : siginfo) : List SigEvent :=
  if i.si_signo = SIGHUP ∨ i.si_signo = SIGINT ∨ i.si_signo = SIGQUIT ∨
     i.si_signo = SIGILL ∨ i.si_signo = SIGABRT ∨ i.si_signo = SIGFPE ∨
     i.si_signo = SIGKILL ∨ i.si_signo = SIGSEGV ∨ i.si_signo = SIGPIPE ∨
     i.si_signo = SIGALRM ∨ i.si_signo = SIGTERM ∨ i.si_signo = SIGUSR1 ∨
     i.si_signo = SIGUSR2
  then [SigEvent.exitProcess] else []

/-- `signal_deliver` (sig.c lines 124-143): ignore / default-handle /
contextual delivery (suspend, `dbt_deliver_signal`, store
`current_siginfo`, signal the event, resume), clearing
`can_accept_signal` first. -/
def signal_deliver (st : signal_data) (i : siginfo) :
    signal_data × List SigEvent :=
  match (st.actions.getD i.si_signo.toNat sigaction0).sa_handler with
  | sighandler.ign => (st, [])
  | sighandler.dfl => (st, signal_default_handler i)
  | sighandler.custom _ =>
    ({ st with can_accept_signal := false, current_siginfo := i },
     [SigEvent.contextDeliver i])

/-- `signal_thread_handle_kill` (sig.c lines 145-161): under the mutex,
an already-pending signo drops the request; a masked or not-acceptable
signo is recorded as pending with its siginfo; otherwise deliver. -/
def signal_thread_handle_kill (st : signal_data) (i : siginfo) :
    signal_data × List SigEvent :=
  let signo := i.si_signo.toNat
  if sigismember st.pending signo then
    (st, [])
  else if sigismember st.mask signo ∨ ¬st.can_accept_signal then
    ({ st with pending := sigaddset st.pending signo,
               info := st.info.set signo i }, [])
  else
    signal_deliver st i

/-- `sys_rt_sigaction` (sig.c lines 499-517).  The result triple is
(return value, new state, value copied out through `oldact`). -/
def sys_rt_sigaction (signum : Int) (act : Option sigaction)
    (oldact : Bool) (sigsetsize : Nat) (st : signal_data) :
    Int × signal_data × Option sigaction :=
  if sigsetsize ≠ sizeof_sigset_t then (-EINVAL, st, none)
  else if signum < 0 ∨ signum ≥ (NSIG : Int) ∨ signum = SIGKILL ∨
          signum = SIGSTOP then (-EINVAL, st, none)
  else
    let old := if oldact then some (st.actions.getD signum.toNat sigaction0)
               else none
    match act with
    | none => (0, st, old)
    | some a => (0, { st with actions := st.actions.set signum.toNat a }, old)

/-- `sys_rt_sigprocmask` (sig.c lines 519-553).  The result triple is
(return value, new state, events written to the signal pipe); the
`oldset` copy-out does not affect the signal state. -/
def sys_rt_sigprocmask (how : Int) (set : Option Nat) (sigsetsize : Nat)
    (st : signal_data) : Int × signal_data × List SigEvent :=
  if sigsetsize ≠ sizeof_sigset_t then (-EINVAL, st, [])
  else if how ≠ SIG_BLOCK ∧ how ≠ SIG_UNBLOCK ∧ how ≠ SIG_SETMASK then
    (-EINVAL, st, [])
  else
    let st' :=
      match set with
      | none => st
      | some m =>
        if how = SIG_BLOCK then { st with mask := st.mask ||| m }
        else if how = SIG_UNBLOCK then { st with mask := st.mask &&& bitNot64 m }
        else { st with mask := m }
    (0, st', send_pending_signal st')

/- ### File-descriptor table (`struct vfs_data` and the fd syscalls,
sig.c lines 611-1412)

Files are identified by allocation order (`Nat`); the per-file
reference count lives in `ref`.  Two ghost fields instrument the
observable lifecycle facts the specification tests: `borrows` counts
outstanding borrowed references (acquired by `vfs_ref` or handed out by
the allocators, released by `vfs_release`), and `closeCalls` counts
invocations of the file's `op_vtable->close`.  Neither ghost field
influences any computed value or branch. -/

structure vfs_data where
  fds : List (Option Nat)         -- length MAX_FD_COUNT
  fds_cloexec : List Bool
  ref : Nat → Nat                 -- f->ref for each live file
  allocated : Nat → Bool          -- ghost: ids handed out so far
  borrows : Nat → Nat             -- ghost: outstanding borrowed refs
  closeCalls : Nat → Nat          -- ghost: op_vtable->close invocations
  nextId : Nat                    -- ghost: next fresh id

/-- `vfs_get(fd)` (sig.c lines 629-634): bounds-checked slot read. -/
def vfs_get (st : vfs_data) (fd : Int) : Option Nat :=
  if fd < 0 ∨ fd ≥ (MAX_FD_COUNT : Int) then none
  else st.fds.getD fd.toNat none

/-- The shared body of `vfs_release`/`vfs_close`:
`if (--f->ref == 0) f->op_vtable->close(f);`. -/
def releaseRef (st : vfs_data) (f : Nat) : vfs_data :=
  let r := st.ref f - 1
  let st' := { st with ref := Function.update st.ref f r }
  if r = 0 then
    { st' with closeCalls := Function.update st'.closeCalls f (st'.closeCalls f + 1) }
  else st'

/-- `vfs_ref(f)` (sig.c lines 637-640): borrow a raw file handle. -/
def vfs_ref (st : vfs_data) (f : Nat) : vfs_data :=
  { st with ref := Function.update st.ref f (st.ref f + 1),
            borrows := Function.update st.borrows f (st.borrows f + 1) }

/-- `vfs_release(f)` (sig.c lines 643-647): release a borrowed
reference. -/
def vfs_release (st : vfs_data) (f : Nat) : vfs_data :=
  releaseRef { st with borrows := Function.update st.borrows f (st.borrows f - 1) } f

/-- `vfs_close(fd)` (sig.c lines 650-656): release the slot's
reference and clear slot and cloexec flag.  (The source dereferences
the slot unconditionally; every caller guards against an empty slot,
so the empty case is modelled as a no-op.) -/
def vfs_close (st : vfs_data) (fd : Nat) : vfs_data :=
  match st.fds.getD fd none with
  | none => st
  | some f =>
    let st' := releaseRef st f
    { st' with fds := st'.fds.set fd none,
               fds_cloexec := st'.fds_cloexec.set fd false }

/-- The slot scan of `vfs_store_file` and of the `newfd == -1` branch
of `vfs_dup`: index of the first empty slot. -/
def firstEmpty : List (Option Nat) → Option Nat
  | [] => none
  | none :: _ => some 0
  | some _ :: rest => (firstEmpty rest).map (· + 1)

/-- `vfs_store_file(f, cloexec)` (sig.c lines 702-712): first empty
slot or `-EMFILE`.  The file's refcount is untouched — the caller
transfers its reference to the table, which the ghost `borrows` field
records. -/
def vfs_store_file (st : vfs_data) (f : Nat) (cloexec : Bool) :
    Int × vfs_data :=
  match firstEmpty st.fds with
  | some i =>
    ((i : Int),
     { st with fds := st.fds.set i (some f),
               fds_cloexec := st.fds_cloexec.set i cloexec,
               borrows := Function.update st.borrows f (st.borrows f - 1) })
  | none => (-EMFILE, st)

/-- `vfs_dup(fd, newfd, flags)` (sig.c lines 1367-1394). -/
def vfs_dup (st : vfs_data) (fd newfd flags : Int) : Int × vfs_data :=
  match vfs_get st fd with
  | none => (-EBADF, st)
  | some f =>
    if newfd = -1 then
      match firstEmpty st.fds with
      | none => (-EMFILE, st)
      | some i =>
        ((i : Int),
         { st with fds := st.fds.set i (some f),
                   fds_cloexec := st.fds_cloexec.set i (land32 flags O_CLOEXEC ≠ 0),
                   ref := Function.update st.ref f (st.ref f + 1) })
    else if newfd = fd ∨ newfd < 0 ∨ newfd ≥ (MAX_FD_COUNT : Int) then
      (-EINVAL, st)
    else
      let n := newfd.toNat
      let st' := if (st.fds.getD n none).isSome then vfs_close st n else st
      (newfd,
       { st' with fds := st'.fds.set n (some f),
                  fds_cloexec := st'.fds_cloexec.set n (land32 flags O_CLOEXEC ≠ 0),
                  ref := Function.update st'.ref f (st'.ref f + 1) })

/-- `pipe_alloc(&fread, &fwrite, flags)`: the pipe driver hands back
two fresh files, each with one reference owned by the caller (a
borrowed reference in the ghost accounting). -/
def pipe_alloc (st : vfs_data) : Nat × Nat × vfs_data :=
  let r := st.nextId
  let w := st.nextId + 1
  (r, w,
   { st with
     allocated := Function.update (Function.update st.allocated r true) w true,
     ref := Function.update (Function.update st.ref r 1) w 1,
     borrows := Function.update (Function.update st.borrows r 1) w 1,
     nextId := st.nextId + 2 })

/-- `sys_pipe2(pipefd, flags)` (sig.c lines 1320-1360).
`pipefdValid` is the `mm_check_write(pipefd, ...)` verdict; `allocErr`
is `pipe_alloc`'s error, `none` for success.  The result is (return
value, new state, the two descriptors written to `pipefd`). -/
def sys_pipe2 (st : vfs_data) (flags : Int) (pipefdValid : Bool)
    (allocErr : Option Int) : Int × vfs_data × Option (Int × Int) :=
  if land32 flags O_DIRECT ≠ 0 ∨ land32 flags O_NONBLOCK ≠ 0 then (-EINVAL, st, none)
  else if ¬pipefdValid then (-EFAULT, st, none)
  else
    match allocErr with
    | some e => (e, st, none)
    | none =>
      let (fread, fwrite, st1) := pipe_alloc st
      let cloexec := land32 flags O_CLOEXEC ≠ 0
      let (rfd, st2) := vfs_store_file st1 fread cloexec
      if rfd < 0 then
        (rfd, vfs_release (vfs_release st2 fread) fwrite, none)
      else
        let (wfd, st3) := vfs_store_file st2 fwrite cloexec
        if wfd < 0 then
          (wfd, vfs_release (vfs_close st3 rfd.toNat) fwrite, none)
        else (0, st3, some (rfd, wfd))

/- ### Operation sequences over the descriptor table (spec §4.4, §8)

The specification's lifecycle invariant quantifies over sequences of
table operations; `VfsOp` is that operation alphabet.  `opOk` captures
the preconditions under which the C code performs each operation
(callers hold a reference they transfer or borrow; `close` is reached
only through a successful descriptor lookup). -/

inductive VfsOp where
  | alloc                                   -- a driver allocates a fresh file
  | store (f : Nat) (cloexec : Bool)     -- vfs_store_file
  | close (fd : Nat)                        -- vfs_close via sys_close
  | dup (fd newfd flags : Int)              -- vfs_dup
  | ref (f : Nat)                        -- vfs_ref
  | release (f : Nat)                    -- vfs_release
deriving DecidableEq

/-- `alloc`: a fresh file with one caller-owned reference (the shared
shape of `console_alloc`, `pipe_alloc`, the socket and fs openers). -/
def file_alloc (st : vfs_data) : vfs_data :=
  { st with
    allocated := Function.update st.allocated st.nextId true,
    ref := Function.update st.ref st.nextId 1,
    borrows := Function.update st.borrows st.nextId 1,
    nextId := st.nextId + 1 }

/-- Precondition under which the C code issues the operation. -/
def opOk (st : vfs_data) : VfsOp → Bool
  | VfsOp.alloc => true
  | VfsOp.store f _ => st.allocated f && decide (0 < st.borrows f)
  | VfsOp.close fd => (st.fds.getD fd none).isSome
  | VfsOp.dup _ _ _ => true
  | VfsOp.ref f => st.allocated f && decide (0 < st.ref f)
  | VfsOp.release f => st.allocated f && decide (0 < st.borrows f)

/-- Effect of one operation on the table. -/
def applyOp (st : vfs_data) : VfsOp → vfs_data
  | VfsOp.alloc => file_alloc st
  | VfsOp.store f c => (vfs_store_file st f c).2
  | VfsOp.close fd => vfs_close st fd
  | VfsOp.dup fd newfd flags => (vfs_dup st fd newfd flags).2
  | VfsOp.ref f => vfs_ref st f
  | VfsOp.release f => vfs_release st f

def applyOps (st : vfs_data) : List VfsOp → vfs_data
  | [] => st
  | op :: ops => applyOps (applyOp st op) ops

def opsOk (st : vfs_data) : List VfsOp → Bool
  | [] => true
  | op :: ops => opOk st op && opsOk (applyOp st op) ops

/-- Number of entries of `l` equal to `some f`. -/
def countF (l : List (Option Nat)) (f : Nat) : Nat :=
  l.countP (fun s => s == some f)

/-- Number of table slots holding file `f`. -/
def slotCount (st : vfs_data) (f : Nat) : Nat :=
  countF st.fds f

/-- The table after `vfs_init` minus the three console descriptors:
all slots empty, no files allocated. -/
def vfs_init_state : vfs_data :=
  { fds := List.replicate MAX_FD_COUNT none,
    fds_cloexec := List.replicate MAX_FD_COUNT false,
    ref := fun _ => 0,
    allocated := fun _ => false,
    borrows := fun _ => 0,
    closeCalls := fun _ => 0,
    nextId := 0 }

/-- The specification's lifecycle invariant (§8.3, §4.4): every live
file's refcount is the number of slots holding it plus the outstanding
borrows, and `close` has run exactly once on dead files and never on
live ones. -/
def RefInvariant (st : vfs_data) : Prop :=
  ∀ f, st.allocated f = true →
    (st.ref f = slotCount st f + st.borrows f ∧
     (st.ref f = 0 → st.closeCalls f = 1) ∧
     (st.ref f ≠ 0 → st.closeCalls f = 0))

/-- The bookkeeping facts the induction carries alongside
`RefInvariant`: the table has its fixed capacity, unallocated ids are
inert and absent from the table, and allocated ids are below the
allocation counter. -/
def TableWF (st : vfs_data) : Prop :=
  st.fds.length = MAX_FD_COUNT ∧
  (∀ f, st.allocated f = false →
    st.ref f = 0 ∧ st.borrows f = 0 ∧ st.closeCalls f = 0 ∧ slotCount st f = 0) ∧
  (∀ f, st.allocated f = true → f < st.nextId)

/- ### Concrete fixtures used by the witness theorems -/

/-- A driver whose every `open` reports a symlink pointing back at
`/a`: the self-loop of scenario S3. -/
def loopFS : file_system :=
  { mountpoint := "/".toList,
    fsopen := some (fun _ _ _ => OpenRes.symlink "/a".toList),
    readlink := none }

/-- A table with file 0 open at descriptor 3 and file 1 open at
descriptor 4 (scenario S6). -/
def dupState : vfs_data :=
  { fds := ((List.replicate MAX_FD_COUNT none).set 3 (some 0)).set 4 (some 1),
    fds_cloexec := List.replicate MAX_FD_COUNT false,
    ref := fun g => if g = 0 ∨ g = 1 then 1 else 0,
    allocated := fun g => g == 0 || g == 1,
    borrows := fun _ => 0,
    closeCalls := fun _ => 0,
    nextId := 2 }

/- ## Theorems -/

/- ### List bookkeeping lemmas -/

theorem getD_set_self (l : List (Option Nat)) (i : Nat) (v : Option Nat)
    (h : i < l.length) : (l.set i v).getD i none = v := by
  simp [List.getD_eq_getElem?_getD, List.getElem?_set_self h]

theorem getD_set_ne (l : List (Option Nat)) (i j : Nat) (v : Option Nat)
    (h : i ≠ j) : (l.set i v).getD j none = l.getD j none := by
  simp [List.getD_eq_getElem?_getD, List.getElem?_set_ne h]

theorem getD_lt_length {l : List (Option Nat)} {i : Nat} {f : Nat}
    (h : l.getD i none = some f) : i < l.length := by
  by_contra hh
  push_neg at hh
  simp [List.getD_eq_getElem?_getD, List.getElem?_eq_none hh] at h

theorem set_none_of_getD_none {l : List (Option Nat)} {i : Nat}
    (h : l.getD i none = none) : l.set i none = l := by
  apply List.ext_getElem?
  intro n
  by_cases hn : n = i
  · subst hn
    by_cases hl : n < l.length
    · have h' : l[n] = none := by
        simpa [List.getD_eq_getElem?_getD, List.getElem?_eq_getElem hl] using h
      simp [List.getElem?_set_self hl, List.getElem?_eq_getElem hl, h']
    · push_neg at hl
      simp [List.getElem?_eq_none, hl]
  · simp [List.getElem?_set_ne (fun hh => hn hh.symm)]

theorem countF_set (l : List (Option Nat)) (i : Nat) (v : Option Nat) (f : Nat)
    (h : i < l.length) :
    countF (l.set i v) f =
      countF l f - (if l.getD i none = some f then 1 else 0) +
        (if v = some f then 1 else 0) := by
  unfold countF
  rw [List.countP_set _ _ _ _ h]
  simp [List.getD_eq_getElem?_getD, List.getElem?_eq_getElem h, beq_iff_eq]

theorem countF_pos {l : List (Option Nat)} {i : Nat} {f : Nat}
    (h : l.getD i none = some f) : 1 ≤ countF l f := by
  have hi := getD_lt_length h
  simp only [List.getD_eq_getElem?_getD, List.getElem?_eq_getElem hi,
    Option.getD_some] at h
  have : 0 < countF l f := by
    unfold countF
    rw [List.countP_pos_iff]
    exact ⟨some f, h ▸ List.getElem_mem hi, by simp⟩
  omega

theorem countF_two {l : List (Option Nat)} {i j : Nat} {f : Nat}
    (hi : l.getD i none = some f) (hj : l.getD j none = some f)
    (hij : i ≠ j) : 2 ≤ countF l f := by
  have hil := getD_lt_length hi
  have h1 : countF (l.set i none) f = countF l f - 1 := by
    rw [countF_set l i none f hil, if_pos hi]
    simp
  have h2 : 1 ≤ countF (l.set i none) f :=
    countF_pos (l := l.set i none) (i := j)
      (by rw [getD_set_ne l i j none hij]; exact hj)
  have h3 : 1 ≤ countF l f := countF_pos hi
  omega

theorem countF_getD_ne {l : List (Option Nat)} {j : Nat} {f : Nat}
    (h : countF l f = 0) : l.getD j none ≠ some f := by
  intro hj
  have := countF_pos hj
  omega

theorem firstEmpty_some : ∀ (l : List (Option Nat)) (i : Nat),
    firstEmpty l = some i → i < l.length ∧ l.getD i none = none := by
  intro l
  induction l with
  | nil => intro i h; simp [firstEmpty] at h
  | cons s rest ih =>
    intro i h
    cases s with
    | none =>
      rw [firstEmpty] at h
      injection h with h
      subst h
      simp
    | some g =>
      rw [firstEmpty] at h
      rcases Option.map_eq_some'.mp h with ⟨j, hj, hji⟩
      subst hji
      rcases ih j hj with ⟨h1, h2⟩
      exact ⟨by simpa using h1, by simpa using h2⟩

theorem getD_mem_of_some {l : List (Option Nat)} {j g : Nat}
    (h : l.getD j none = some g) : some g ∈ l := by
  have hj := getD_lt_length h
  simp only [List.getD_eq_getElem?_getD, List.getElem?_eq_getElem hj,
    Option.getD_some] at h
  exact h ▸ List.getElem_mem hj

/- ### C1: the S1 normalisation scenarios -/

/-- C1.  Evaluation of `normalize_path` on the three literal S1
scenarios.  The first and third behave as the specification states;
the second does not: `normalize("/", "..")` produces the EMPTY string,
because the `..` branch executes `p--` before the `p > out` guard is
consulted, popping the leading `/` (sig.c lines 963-972).  The
specification's "never pop the leading `/`" describes the evident
intent (the final trailing-slash rule even special-cases preserving a
lone `"/"`), so this is a defect of the code. -/
theorem normalize_path_s1 :
    normalize_path "/a/b".toList "../c/./d//e/..".toList = "/a/c/d".toList ∧
    normalize_path "/x/".toList "y/.".toList = "/x/y/.".toList ∧
    normalize_path "/".toList "..".toList = [] := by
  decide

/- ### C2: the symlink depth cap -/

theorem vfs_open_loop_eq_stepN (fss : List file_system) (flags mode : Int) :
    ∀ (n : Nat) (path : List Char),
      vfs_open_loop fss flags mode n path =
        (match stepN fss flags mode path n with
         | Step.done r => r
         | Step.cont _ => -ELOOP) := by
  intro n
  induction n with
  | zero => intro path; rfl
  | succ k ih =>
    intro path
    simp only [vfs_open_loop, stepN]
    cases vfs_open_step fss flags mode path with
    | done r => rfl
    | cont p' => exact ih p'

/-- C2.  `vfs_open` equals: run the per-iteration resolver step at
most `MAX_SYMLINK_LEVEL` times; if an iteration returns, that is the
result, and if the budget is exhausted while resolution is still
continuing (a chain of more than `MAX_SYMLINK_LEVEL` symlinks), the
result is `-ELOOP`.  In particular the loop always terminates within
`MAX_SYMLINK_LEVEL` iterations, and exhausting the cap unconditionally
yields `-ELOOP` (second conjunct). -/
theorem vfs_open_symlink_depth_cap (fss : List file_system)
    (cwd pathname : List Char) (flags mode : Int) :
    (vfs_open fss cwd pathname flags mode =
      (match stepN fss flags mode (normalize_path cwd pathname)
          MAX_SYMLINK_LEVEL with
       | Step.done r => r
       | Step.cont _ => -ELOOP)) ∧
    (∀ q, stepN fss flags mode (normalize_path cwd pathname)
        MAX_SYMLINK_LEVEL = Step.cont q →
      vfs_open fss cwd pathname flags mode = -ELOOP) := by
  constructor
  · exact vfs_open_loop_eq_stepN fss flags mode MAX_SYMLINK_LEVEL
      (normalize_path cwd pathname)
  · intro q hq
    unfold vfs_open
    rw [vfs_open_loop_eq_stepN fss flags mode MAX_SYMLINK_LEVEL
      (normalize_path cwd pathname), hq]

/-- Scenario S3: with `/a` a symlink to itself, `open("/a", 0)` is
`-ELOOP`. -/
theorem vfs_open_symlink_depth_cap_witness :
    vfs_open [loopFS] "/".toList "a".toList 0 0 = -ELOOP :=
  (vfs_open_symlink_depth_cap [loopFS] "/".toList "a".toList 0 0).2
    "/a".toList (by decide)

/- ### C3: rt_sigprocmask(SETMASK) and the DELIVER packet -/

/-- C3.  `rt_sigprocmask(SIG_SETMASK, m)` with pending set `p`
succeeds, replaces the mask by `m`, and writes exactly one `DELIVER`
packet when `p & ~m` is non-empty and none otherwise. -/
theorem rt_sigprocmask_setmask_deliver (st : signal_data) (m : Nat) :
    sys_rt_sigprocmask SIG_SETMASK (some m) sizeof_sigset_t st =
      (0, { st with mask := m },
       if st.pending &&& bitNot64 m ≠ 0 then [SigEvent.deliverPacket] else []) := by
  simp [sys_rt_sigprocmask, SIG_SETMASK, SIG_BLOCK, SIG_UNBLOCK,
    send_pending_signal]

/- ### C4: rt_sigaction protects SIGKILL / SIGSTOP -/

/-- C4.  `rt_sigaction` with `signum` equal to `SIGKILL` or `SIGSTOP`,
or outside `0 .. _NSIG-1`, returns `-EINVAL` and leaves the whole
action table (indeed the whole signal state) unchanged, for every
`act`/`oldact` argument. -/
theorem rt_sigaction_protected (st : signal_data) (act : Option sigaction)
    (oldact : Bool) (signum : Int)
    (h : signum = SIGKILL ∨ signum = SIGSTOP ∨ signum < 0 ∨
      (NSIG : Int) ≤ signum) :
    sys_rt_sigaction signum act oldact sizeof_sigset_t st =
      (-EINVAL, st, none) := by
  have hcond : signum < 0 ∨ signum ≥ (NSIG : Int) ∨ signum = SIGKILL ∨
      signum = SIGSTOP := by tauto
  simp [sys_rt_sigaction, hcond]

theorem rt_sigaction_protected_witness :
    sys_rt_sigaction SIGKILL none false sizeof_sigset_t
        ⟨[], 0, 0, [], ⟨0, 0, 0⟩, true⟩ =
      (-EINVAL, ⟨[], 0, 0, [], ⟨0, 0, 0⟩, true⟩, none) :=
  rt_sigaction_protected ⟨[], 0, 0, [], ⟨0, 0, 0⟩, true⟩ none false SIGKILL
    (Or.inl rfl)

/- ### C5: an already-pending signal is dropped -/

/-- C5.  Handling a `KILL` packet whose signal number is already in
the pending set leaves the whole signal state unchanged (pending set,
stored siginfo, mask, `can_accept_signal`) and performs no delivery
and no other observable action. -/
theorem handle_kill_pending_drops (st : signal_data) (i : siginfo)
    (h : sigismember st.pending i.si_signo.toNat = true) :
    signal_thread_handle_kill st i = (st, []) := by
  simp [signal_thread_handle_kill, h]

theorem handle_kill_pending_drops_witness :
    signal_thread_handle_kill ⟨[], 0, 2, [], ⟨0, 0, 0⟩, true⟩ ⟨1, 0, 0⟩ =
      (⟨[], 0, 2, [], ⟨0, 0, 0⟩, true⟩, []) :=
  handle_kill_pending_drops ⟨[], 0, 2, [], ⟨0, 0, 0⟩, true⟩ ⟨1, 0, 0⟩
    (by decide)

/- ### C6: the registry lookup -/

theorem stripMountpoint_eq (m p : List Char) :
    stripMountpoint m p =
      if m.isPrefixOf p then some (p.drop m.length) else none := by
  induction m generalizing p with
  | nil => simp [stripMountpoint, List.isPrefixOf]
  | cons a as ih =>
    cases p with
    | nil => simp [stripMountpoint, List.isPrefixOf]
    | cons b bs =>
      by_cases hab : a = b
      · subst hab
        simp [stripMountpoint, List.isPrefixOf, ih]
      · simp [stripMountpoint, List.isPrefixOf, hab]

/-- C6.  The registry lookup agrees, on every registry list and every
path, with the specification's description: the first entry (in list
order, most recently added first) whose mountpoint is a literal string
prefix of the path wins, the subpath is the path with the mountpoint
stripped and one leading `/` removed, and no matching entry means
not-found. -/
theorem find_filesystem_correct (fss : List file_system) (path : List Char) :
    find_filesystem fss path = find_filesystem_spec fss path := by
  induction fss with
  | nil => rfl
  | cons fs rest ih =>
    by_cases h : fs.mountpoint.isPrefixOf path
    · simp [find_filesystem, find_filesystem_spec, stripMountpoint_eq, h]
    · simp [find_filesystem, find_filesystem_spec, stripMountpoint_eq, h, ih,
        find_filesystem_spec]

/- ### C9: idempotence of normalisation against the root -/

theorem getLast?_cons_ne {c : Char} {l : List Char} (h : l ≠ []) :
    (c :: l).getLast? = l.getLast? := by
  cases l with
  | nil => simp at h
  | cons d t => simp [List.getLast?]

theorem isNormalTail_ne_nil {rest : List Char}
    (h : isNormalTail false rest = true) : rest ≠ [] := by
  intro he
  subst he
  simp [isNormalTail] at h

theorem isNormalTail_getLast : ∀ (mode : Bool) (rest : List Char),
    isNormalTail mode rest = true → rest.getLast? ≠ some '/' := by
  intro mode rest
  induction mode, rest using isNormalTail.induct with
  | case1 => simp
  | case2 rest ih =>
    intro h
    rw [isNormalTail.eq_2] at h
    rw [getLast?_cons_ne (isNormalTail_ne_nil h)]
    exact ih h
  | case3 c rest hc ih =>
    intro h
    rw [isNormalTail.eq_3 c rest hc] at h
    cases rest with
    | nil => simpa using hc
    | cons d t =>
      rw [getLast?_cons_ne (by simp)]
      exact ih h
  | case4 => simp [isNormalTail]
  | case5 => simp [isNormalTail]
  | case6 => simp
  | case7 => simp [isNormalTail]
  | case8 => simp [isNormalTail]
  | case9 => simp [isNormalTail]
  | case10 c rest hc h1 h2 h3 h4 ih =>
    intro h
    rw [isNormalTail.eq_10 c rest hc h1 h2 h3 h4] at h
    cases rest with
    | nil => simpa using hc
    | cons d t =>
      rw [getLast?_cons_ne (by simp)]
      exact ih h

theorem normLoop_normal : ∀ (mode : Bool) (rest : List Char),
    isNormalTail mode rest = true →
    ∀ out, normLoop mode rest out = out ++ rest := by
  intro mode rest
  induction mode, rest using isNormalTail.induct with
  | case1 => intro _ out; simp [normLoop]
  | case2 rest ih =>
    intro h out
    rw [isNormalTail.eq_2] at h
    rw [normLoop.eq_2, ih h]
    simp
  | case3 c rest hc ih =>
    intro h out
    rw [isNormalTail.eq_3 c rest hc] at h
    rw [normLoop.eq_3 out c rest hc, ih h]
    simp
  | case4 => intro h; simp [isNormalTail] at h
  | case5 => intro h; simp [isNormalTail] at h
  | case6 => intro _ out; simp [normLoop]
  | case7 => intro h; simp [isNormalTail] at h
  | case8 => intro h; simp [isNormalTail] at h
  | case9 => intro h; simp [isNormalTail] at h
  | case10 c rest hc h1 h2 h3 h4 ih =>
    intro h out
    rw [isNormalTail.eq_10 c rest hc h1 h2 h3 h4] at h
    rw [normLoop.eq_9 out c rest hc h1 h2 h3 h4, ih h]
    simp

/-- C9, amended.  On every path already in the §3 normal form,
normalisation against the root is the identity, and hence idempotent:
`normalize("/", p) = p` and
`normalize("/", normalize("/", p)) = normalize("/", p)`. -/
theorem normalize_path_idem_normal (p : List Char)
    (h : isNormalizedPath p = true) :
    normalize_path "/".toList p = p ∧
    normalize_path "/".toList (normalize_path "/".toList p) =
      normalize_path "/".toList p := by
  have hmain : normalize_path "/".toList p = p := by
    cases p with
    | nil => simp [isNormalizedPath] at h
    | cons c rest =>
      by_cases hc : c = '/'
      · subst hc
        rw [isNormalizedPath] at h
        rcases Bool.or_eq_true_iff.mp h with he | hn
        · have : rest = [] := by simpa using he
          subst this
          decide
        · have hout := normLoop_normal false rest hn ['/']
          have hne := isNormalTail_ne_nil hn
          have hlast : (('/' : Char) :: rest).getLast? ≠ some '/' := by
            rw [getLast?_cons_ne hne]
            exact isNormalTail_getLast false rest hn
          show normalize_path ['/'] ('/' :: rest) = '/' :: rest
          rw [normalize_path]
          simp only [hout]
          rw [if_neg]
          · rfl
          · intro hcond
            exact hlast hcond.2
      · exfalso
        have hfalse : isNormalizedPath (c :: rest) = false :=
          isNormalizedPath.eq_2 (c :: rest)
            (fun tail he => by injection he with h1 h2; exact hc h1)
        rw [hfalse] at h
        exact Bool.false_ne_true h
  exact ⟨hmain, by rw [hmain, hmain]⟩

theorem normalize_path_idem_normal_witness :
    normalize_path "/".toList "/a/c/d".toList = "/a/c/d".toList ∧
    normalize_path "/".toList (normalize_path "/".toList "/a/c/d".toList) =
      normalize_path "/".toList "/a/c/d".toList :=
  normalize_path_idem_normal "/a/c/d".toList (by decide)

/- ### C9 (counterexample): idempotence fails on ".." -/

/- ### C7: vfs_dup -/

theorem releaseRef_fds (st : vfs_data) (g : Nat) :
    (releaseRef st g).fds = st.fds := by
  by_cases h : st.ref g - 1 = 0 <;> simp [releaseRef, h]

theorem releaseRef_cloexec (st : vfs_data) (g : Nat) :
    (releaseRef st g).fds_cloexec = st.fds_cloexec := by
  by_cases h : st.ref g - 1 = 0 <;> simp [releaseRef, h]

theorem releaseRef_ref (st : vfs_data) (g : Nat) :
    (releaseRef st g).ref = Function.update st.ref g (st.ref g - 1) := by
  by_cases h : st.ref g - 1 = 0 <;> simp [releaseRef, h]

theorem releaseRef_borrows (st : vfs_data) (g : Nat) :
    (releaseRef st g).borrows = st.borrows := by
  by_cases h : st.ref g - 1 = 0 <;> simp [releaseRef, h]

theorem releaseRef_allocated (st : vfs_data) (g : Nat) :
    (releaseRef st g).allocated = st.allocated := by
  by_cases h : st.ref g - 1 = 0 <;> simp [releaseRef, h]

theorem releaseRef_nextId (st : vfs_data) (g : Nat) :
    (releaseRef st g).nextId = st.nextId := by
  by_cases h : st.ref g - 1 = 0 <;> simp [releaseRef, h]

theorem releaseRef_closeCalls (st : vfs_data) (g : Nat) :
    (releaseRef st g).closeCalls =
      (if st.ref g - 1 = 0
       then Function.update st.closeCalls g (st.closeCalls g + 1)
       else st.closeCalls) := by
  by_cases h : st.ref g - 1 = 0 <;> simp [releaseRef, h]

/-- C7.  `vfs_dup` on an open descriptor `fd` holding file `f`:
an explicit `newfd` equal to `fd` or outside `[0, MAX_FD_COUNT)` is
rejected with `-EINVAL` and no state change; an explicit in-range
`newfd` whose slot is empty installs `f` there and increments `f`'s
refcount; an explicit in-range `newfd` whose slot holds `g` returns
`newfd`, closes `g` (refcount decremented by one), installs `f`, and
increments `f`'s refcount, all other slots unchanged; `newfd = -1`
uses the first empty slot (or fails with `-EMFILE` when the table is
full). -/
theorem vfs_dup_spec (st : vfs_data) (fd newfd flags : Int) (f : Nat)
    (hf : vfs_get st fd = some f) (hlen : st.fds.length = MAX_FD_COUNT)
    (href : 0 < st.ref f) :
    ((newfd = fd ∨ (newfd ≠ -1 ∧ newfd < 0) ∨ newfd ≥ (MAX_FD_COUNT : Int)) →
      vfs_dup st fd newfd flags = (-EINVAL, st)) ∧
    (∀ n : Nat, newfd = (n : Int) → newfd ≠ fd → n < MAX_FD_COUNT →
      st.fds.getD n none = none →
      vfs_dup st fd newfd flags =
        (newfd,
         { st with fds := st.fds.set n (some f),
                   fds_cloexec := st.fds_cloexec.set n (land32 flags O_CLOEXEC ≠ 0),
                   ref := Function.update st.ref f (st.ref f + 1) })) ∧
    (∀ n : Nat, newfd = (n : Int) → newfd ≠ fd → n < MAX_FD_COUNT →
      ∀ g, st.fds.getD n none = some g →
      (vfs_dup st fd newfd flags).1 = newfd ∧
      (vfs_dup st fd newfd flags).2.fds.getD n none = some f ∧
      (∀ m, m ≠ n → (vfs_dup st fd newfd flags).2.fds.getD m none =
        st.fds.getD m none) ∧
      (vfs_dup st fd newfd flags).2.ref f =
        (if g = f then st.ref f else st.ref f + 1) ∧
      (g ≠ f → (vfs_dup st fd newfd flags).2.ref g = st.ref g - 1)) ∧
    (newfd = -1 →
      (∀ i, firstEmpty st.fds = some i →
        vfs_dup st fd newfd flags =
          ((i : Int),
           { st with fds := st.fds.set i (some f),
                     fds_cloexec := st.fds_cloexec.set i (land32 flags O_CLOEXEC ≠ 0),
                     ref := Function.update st.ref f (st.ref f + 1) })) ∧
      (firstEmpty st.fds = none → vfs_dup st fd newfd flags = (-EMFILE, st))) := by
  have hM : (0 : Int) < (MAX_FD_COUNT : Int) := by norm_num [MAX_FD_COUNT]
  have hbound : ¬(fd < 0 ∨ fd ≥ (MAX_FD_COUNT : Int)) := by
    intro hcon
    rw [vfs_get, if_pos hcon] at hf
    exact Option.noConfusion hf
  have hf' : st.fds.getD fd.toNat none = some f := by
    rw [vfs_get, if_neg hbound] at hf
    exact hf
  have hfd0 : 0 ≤ fd := by omega
  refine ⟨?_, ?_, ?_, ?_⟩
  · -- rejection
    intro h
    have hne1 : ¬(newfd = -1) := by
      rcases h with h | h | h
      · omega
      · exact h.1
      · omega
    have hcond : newfd = fd ∨ newfd < 0 ∨ newfd ≥ (MAX_FD_COUNT : Int) := by
      rcases h with h | h | h
      · exact Or.inl h
      · exact Or.inr (Or.inl h.2)
      · exact Or.inr (Or.inr h)
    simp only [vfs_dup, hf, if_neg hne1, if_pos hcond]
  · -- explicit target, empty slot
    intro n hn hne hlt hempty
    have hge : (0 : Int) ≤ newfd := by omega
    have hne1 : ¬(newfd = -1) := by omega
    have hcond : ¬(newfd = fd ∨ newfd < 0 ∨ newfd ≥ (MAX_FD_COUNT : Int)) := by
      push_neg
      refine ⟨hne, by omega, ?_⟩
      rw [hn]
      exact_mod_cast hlt
    have htn : newfd.toNat = n := by
      rw [hn]
      exact Int.toNat_natCast n
    simp only [vfs_dup, hf, if_neg hne1, if_neg hcond, htn, hempty,
      Option.isSome_none, Bool.false_eq_true, if_neg (by simp : ¬False)]
  · -- explicit target, occupied slot
    intro n hn hne hlt g hocc
    have hne1 : ¬(newfd = -1) := by omega
    have hcond : ¬(newfd = fd ∨ newfd < 0 ∨ newfd ≥ (MAX_FD_COUNT : Int)) := by
      push_neg
      refine ⟨hne, by omega, ?_⟩
      rw [hn]
      exact_mod_cast hlt
    have htn : newfd.toNat = n := by
      rw [hn]
      exact Int.toNat_natCast n
    have hstep : vfs_dup st fd newfd flags =
        (newfd,
         { vfs_close st n with
             fds := (vfs_close st n).fds.set n (some f),
             fds_cloexec :=
               (vfs_close st n).fds_cloexec.set n (land32 flags O_CLOEXEC ≠ 0),
             ref := Function.update (vfs_close st n).ref f
               ((vfs_close st n).ref f + 1) }) := by
      simp only [vfs_dup, hf, if_neg hne1, if_neg hcond, htn, hocc,
        Option.isSome_some, eq_self_iff_true, if_true]
    have hclose_fds : (vfs_close st n).fds = st.fds.set n none := by
      simp only [vfs_close, hocc, releaseRef_fds]
    have hclose_ref : (vfs_close st n).ref =
        Function.update st.ref g (st.ref g - 1) := by
      simp only [vfs_close, hocc, releaseRef_ref]
    have hlt' : n < st.fds.length := by rw [hlen]; exact hlt
    refine ⟨by rw [hstep], ?_, ?_, ?_, ?_⟩
    · rw [hstep]
      simp only [hclose_fds]
      exact getD_set_self _ n (some f) (by simpa using hlt')
    · intro m hm
      rw [hstep]
      simp only [hclose_fds]
      rw [getD_set_ne _ _ _ _ (fun hh => hm hh.symm),
        getD_set_ne _ _ _ _ (fun hh => hm hh.symm)]
    · rw [hstep]
      simp only [hclose_ref]
      by_cases hgf : g = f
      · subst hgf
        rw [if_pos rfl]
        simp [Function.update_same]
        omega
      · rw [if_neg hgf]
        rw [Function.update_same, Function.update_noteq (fun hh => hgf hh.symm)]
    · intro hgf
      rw [hstep]
      simp only [hclose_ref]
      rw [Function.update_noteq hgf, Function.update_same]
  · -- newfd = -1
    intro h
    subst h
    constructor
    · intro i hi
      simp only [vfs_dup, hf, hi, eq_self_iff_true, if_true]
    · intro hnone
      simp only [vfs_dup, hf, hnone, eq_self_iff_true, if_true]

set_option maxRecDepth 8192 in
theorem vfs_dup_spec_witness :
    (vfs_dup dupState 3 4 0).1 = 4 ∧
    (vfs_dup dupState 3 4 0).2.fds.getD 4 none = some 0 ∧
    (vfs_dup dupState 3 4 0).2.ref 1 = 0 := by
  have h := vfs_dup_spec dupState 3 4 0 0 (by decide) (by decide) (by decide)
  have h4 := h.2.2.1 4 (by decide) (by decide) (by decide) 1 (by decide)
  refine ⟨h4.1, h4.2.1, ?_⟩
  rw [h4.2.2.2.2 (by decide)]
  decide

/- ### C8: the refcount lifecycle invariant -/

theorem allocated_of_slot {st : vfs_data} (hW : TableWF st) {i g : Nat}
    (hocc : st.fds.getD i none = some g) : st.allocated g = true := by
  cases hh : st.allocated g with
  | true => rfl
  | false =>
    have h0 := (hW.2.1 g hh).2.2.2
    have h1 := countF_pos hocc
    simp only [slotCount] at h0
    omega

theorem step_alloc {st : vfs_data} (hI : RefInvariant st) (hW : TableWF st) :
    RefInvariant (file_alloc st) ∧ TableWF (file_alloc st) := by
  obtain ⟨hlen, hinert, hbelow⟩ := hW
  have hnotalloc : st.allocated st.nextId = false := by
    cases hh : st.allocated st.nextId with
    | false => rfl
    | true => exact absurd (hbelow _ hh) (lt_irrefl _)
  obtain ⟨href, hbor, hcc, hslot⟩ := hinert st.nextId hnotalloc
  simp only [slotCount] at hslot
  refine ⟨?_, ?_, ?_, ?_⟩
  · intro g hg
    simp only [file_alloc, slotCount] at hg ⊢
    by_cases hgn : g = st.nextId
    · subst hgn
      simp only [Function.update_same]
      refine ⟨by omega, by omega, fun _ => hcc⟩
    · rw [Function.update_noteq hgn] at hg
      simp only [Function.update_noteq hgn]
      exact hI g hg
  · simpa [file_alloc] using hlen
  · intro g hg
    simp only [file_alloc] at hg ⊢
    have hgn : g ≠ st.nextId := by
      intro hh
      subst hh
      simp [Function.update_same] at hg
    rw [Function.update_noteq hgn] at hg
    simp only [Function.update_noteq hgn, slotCount]
    exact (hinert g hg).imp id (fun h => h.imp id (fun h => h.imp id
      (by simp only [slotCount]; exact id)))
  · intro g hg
    simp only [file_alloc] at hg ⊢
    by_cases hgn : g = st.nextId
    · omega
    · rw [Function.update_noteq hgn] at hg
      have := hbelow g hg
      omega

theorem step_store {st : vfs_data} (f : Nat) (c : Bool)
    (hI : RefInvariant st) (hW : TableWF st)
    (hok : opOk st (VfsOp.store f c) = true) :
    RefInvariant (applyOp st (VfsOp.store f c)) ∧
    TableWF (applyOp st (VfsOp.store f c)) := by
  obtain ⟨hlen, hinert, hbelow⟩ := hW
  simp only [opOk, Bool.and_eq_true, decide_eq_true_eq] at hok
  obtain ⟨haf, hbf'⟩ := hok
  rcases hFE : firstEmpty st.fds with _ | i
  · simp only [applyOp, vfs_store_file, hFE]
    exact ⟨hI, hlen, hinert, hbelow⟩
  · rcases firstEmpty_some st.fds i hFE with ⟨hilen, hiempty⟩
    simp only [applyOp, vfs_store_file, hFE]
    have hcount : ∀ g, countF (st.fds.set i (some f)) g =
        countF st.fds g + (if g = f then 1 else 0) := by
      intro g
      rw [countF_set st.fds i (some f) g hilen, hiempty]
      simp [eq_comm]
    refine ⟨?_, ?_, ?_, ?_⟩
    · intro g hg
      simp only [slotCount] at hg ⊢
      simp only [hcount]
      obtain ⟨he, hc0, hc1⟩ := hI g hg
      simp only [slotCount] at he
      by_cases hgf : g = f
      · subst hgf
        rw [Function.update_same]
        refine ⟨by simp; omega, by omega, fun _ => hc1 (by omega)⟩
      · rw [Function.update_noteq hgf]
        exact ⟨by simp [hgf]; omega, hc0, hc1⟩
    · simpa using hlen
    · intro g hg
      simp only [slotCount] at hg ⊢
      have hgf : g ≠ f := by
        intro hh
        subst hh
        rw [hg] at haf
        exact Bool.noConfusion haf
      obtain ⟨h1, h2, h3, h4⟩ := hinert g hg
      rw [Function.update_noteq hgf]
      simp only [slotCount] at h4
      rw [hcount g, if_neg hgf]
      exact ⟨h1, h2, h3, by omega⟩
    · exact hbelow

theorem step_refop {st : vfs_data} (f : Nat)
    (hI : RefInvariant st) (hW : TableWF st)
    (hok : opOk st (VfsOp.ref f) = true) :
    RefInvariant (vfs_ref st f) ∧ TableWF (vfs_ref st f) := by
  obtain ⟨hlen, hinert, hbelow⟩ := hW
  simp only [opOk, Bool.and_eq_true, decide_eq_true_eq] at hok
  obtain ⟨haf, hrf'⟩ := hok
  refine ⟨?_, ?_, ?_, ?_⟩
  · intro g hg
    simp only [vfs_ref, slotCount] at hg ⊢
    obtain ⟨he, hc0, hc1⟩ := hI g hg
    simp only [slotCount] at he
    by_cases hgf : g = f
    · subst hgf
      simp only [Function.update_same]
      refine ⟨by omega, by omega, fun _ => hc1 (by omega)⟩
    · simp only [Function.update_noteq hgf]
      exact ⟨he, hc0, hc1⟩
  · simpa [vfs_ref] using hlen
  · intro g hg
    simp only [vfs_ref, slotCount] at hg ⊢
    have hgf : g ≠ f := by
      intro hh
      subst hh
      rw [hg] at haf
      exact Bool.noConfusion haf
    obtain ⟨h1, h2, h3, h4⟩ := hinert g hg
    simp only [Function.update_noteq hgf]
    exact ⟨h1, h2, h3, h4⟩
  · intro g hg
    simp only [vfs_ref] at hg
    exact hbelow g hg

theorem step_release {st : vfs_data} (f : Nat)
    (hI : RefInvariant st) (hW : TableWF st)
    (hok : opOk st (VfsOp.release f) = true) :
    RefInvariant (vfs_release st f) ∧ TableWF (vfs_release st f) := by
  obtain ⟨hlen, hinert, hbelow⟩ := hW
  simp only [opOk, Bool.and_eq_true, decide_eq_true_eq] at hok
  obtain ⟨haf, hbf'⟩ := hok
  obtain ⟨he, hc0, hc1⟩ := hI f haf
  simp only [slotCount] at he
  have hrf : 0 < st.ref f := by omega
  have hcc0 : st.closeCalls f = 0 := hc1 (by omega)
  have hfds : (vfs_release st f).fds = st.fds := by
    simp [vfs_release, releaseRef_fds]
  have href2 : (vfs_release st f).ref =
      Function.update st.ref f (st.ref f - 1) := by
    simp [vfs_release, releaseRef_ref]
  have hbors : (vfs_release st f).borrows =
      Function.update st.borrows f (st.borrows f - 1) := by
    simp [vfs_release, releaseRef_borrows]
  have hccs : (vfs_release st f).closeCalls =
      (if st.ref f - 1 = 0
       then Function.update st.closeCalls f (st.closeCalls f + 1)
       else st.closeCalls) := by
    simp [vfs_release, releaseRef_closeCalls]
  have hallocs : (vfs_release st f).allocated = st.allocated := by
    simp [vfs_release, releaseRef_allocated]
  have hnx : (vfs_release st f).nextId = st.nextId := by
    simp [vfs_release, releaseRef_nextId]
  refine ⟨?_, ?_, ?_, ?_⟩
  · intro g hg
    rw [hallocs] at hg
    simp only [slotCount, hfds, href2, hbors, hccs]
    by_cases hgf : g = f
    · subst hgf
      rw [Function.update_same, Function.update_same]
      by_cases hz : st.ref g - 1 = 0
      · simp only [if_pos hz, Function.update_same]
        refine ⟨by omega, fun _ => by rw [hcc0], fun hh => absurd hz hh⟩
      · simp only [if_neg hz]
        refine ⟨by omega, fun hh => absurd hh hz, fun _ => hcc0⟩
    · obtain ⟨he2, hd0, hd1⟩ := hI g hg
      simp only [slotCount] at he2
      rw [Function.update_noteq hgf, Function.update_noteq hgf]
      by_cases hz : st.ref f - 1 = 0
      · simp only [if_pos hz, Function.update_noteq hgf]
        exact ⟨he2, hd0, hd1⟩
      · simp only [if_neg hz]
        exact ⟨he2, hd0, hd1⟩
  · rw [hfds]
    exact hlen
  · intro g hg
    rw [hallocs] at hg
    have hgf : g ≠ f := by
      intro hh
      subst hh
      rw [hg] at haf
      exact Bool.noConfusion haf
    obtain ⟨h1, h2, h3, h4⟩ := hinert g hg
    simp only [slotCount] at h4
    simp only [slotCount, hfds, href2, hbors, hccs]
    rw [Function.update_noteq hgf, Function.update_noteq hgf]
    refine ⟨h1, h2, ?_, h4⟩
    by_cases hz : st.ref f - 1 = 0
    · simp only [if_pos hz, Function.update_noteq hgf]
      exact h3
    · simp only [if_neg hz]
      exact h3
  · intro g hg
    rw [hallocs] at hg
    rw [hnx]
    exact hbelow g hg

theorem step_close {st : vfs_data} (fd : Nat)
    (hI : RefInvariant st) (hW : TableWF st)
    (hok : opOk st (VfsOp.close fd) = true) :
    RefInvariant (vfs_close st fd) ∧ TableWF (vfs_close st fd) := by
  obtain ⟨hlen, hinert, hbelow⟩ := hW
  simp only [opOk] at hok
  rcases Option.isSome_iff_exists.mp hok with ⟨g0, hocc⟩
  have hg0a : st.allocated g0 = true := allocated_of_slot ⟨hlen, hinert, hbelow⟩ hocc
  have hfdlen := getD_lt_length hocc
  obtain ⟨he, hc0, hc1⟩ := hI g0 hg0a
  simp only [slotCount] at he
  have hslot1 : 1 ≤ countF st.fds g0 := countF_pos hocc
  have hrg : 0 < st.ref g0 := by omega
  have hcc0 : st.closeCalls g0 = 0 := hc1 (by omega)
  have hcount : ∀ g, countF (st.fds.set fd none) g =
      countF st.fds g - (if g = g0 then 1 else 0) := by
    intro g
    rw [countF_set st.fds fd none g hfdlen, hocc]
    by_cases hgg : g = g0
    · subst hgg
      simp
    · simp [Ne.symm hgg, hgg]
  have hfds : (vfs_close st fd).fds = st.fds.set fd none := by
    simp only [vfs_close, hocc, releaseRef_fds]
  have href : (vfs_close st fd).ref = Function.update st.ref g0 (st.ref g0 - 1) := by
    simp only [vfs_close, hocc, releaseRef_ref]
  have hccs : (vfs_close st fd).closeCalls =
      (if st.ref g0 - 1 = 0
       then Function.update st.closeCalls g0 (st.closeCalls g0 + 1)
       else st.closeCalls) := by
    simp only [vfs_close, hocc, releaseRef_closeCalls]
  have hbors : (vfs_close st fd).borrows = st.borrows := by
    simp only [vfs_close, hocc, releaseRef_borrows]
  have hallocs : (vfs_close st fd).allocated = st.allocated := by
    simp only [vfs_close, hocc, releaseRef_allocated]
  have hnx : (vfs_close st fd).nextId = st.nextId := by
    simp only [vfs_close, hocc, releaseRef_nextId]
  refine ⟨?_, ?_, ?_, ?_⟩
  · intro g hg
    rw [hallocs] at hg
    simp only [slotCount, hfds, href, hccs, hbors, hcount]
    by_cases hgf : g = g0
    · subst hgf
      rw [Function.update_same, if_pos rfl]
      by_cases hz : st.ref g - 1 = 0
      · simp only [if_pos hz, Function.update_same]
        refine ⟨by omega, fun _ => by rw [hcc0], fun hh => absurd hz hh⟩
      · simp only [if_neg hz, Function.update_same]
        refine ⟨by omega, fun hh => absurd hh hz, fun _ => hcc0⟩
    · obtain ⟨he2, hd0, hd1⟩ := hI g hg
      simp only [slotCount] at he2
      rw [Function.update_noteq hgf, if_neg hgf]
      by_cases hz : st.ref g0 - 1 = 0
      · simp only [if_pos hz, Function.update_noteq hgf]
        exact ⟨by omega, hd0, hd1⟩
      · simp only [if_neg hz]
        exact ⟨by omega, hd0, hd1⟩
  · rw [hfds]
    simpa using hlen
  · intro g hg
    rw [hallocs] at hg
    have hgf : g ≠ g0 := by
      intro hh
      subst hh
      rw [hg] at hg0a
      exact Bool.noConfusion hg0a
    obtain ⟨h1, h2, h3, h4⟩ := hinert g hg
    simp only [slotCount] at h4
    simp only [slotCount, hfds, href, hccs, hbors, hcount]
    rw [Function.update_noteq hgf, if_neg hgf]
    refine ⟨h1, h2, ?_, by omega⟩
    by_cases hz : st.ref g0 - 1 = 0
    · simp only [if_pos hz, Function.update_noteq hgf]
      exact h3
    · simp only [if_neg hz]
      exact h3
  · intro g hg
    rw [hallocs] at hg
    rw [hnx]
    exact hbelow g hg

/-- Installing file `f` into the empty slot `i` while incrementing its
refcount (the tail of both `vfs_dup` branches) preserves the
invariants. -/
theorem dup_install {st : vfs_data} (f i : Nat) (c : Bool)
    (hI : RefInvariant st) (hW : TableWF st)
    (hiempty : st.fds.getD i none = none) (hilen : i < st.fds.length)
    (haf : st.allocated f = true) (hccf : st.closeCalls f = 0) :
    RefInvariant { st with fds := st.fds.set i (some f),
                           fds_cloexec := st.fds_cloexec.set i c,
                           ref := Function.update st.ref f (st.ref f + 1) } ∧
    TableWF { st with fds := st.fds.set i (some f),
                      fds_cloexec := st.fds_cloexec.set i c,
                      ref := Function.update st.ref f (st.ref f + 1) } := by
  obtain ⟨hlen, hinert, hbelow⟩ := hW
  have hcount : ∀ g, countF (st.fds.set i (some f)) g =
      countF st.fds g + (if g = f then 1 else 0) := by
    intro g
    rw [countF_set st.fds i (some f) g hilen, hiempty]
    simp [eq_comm]
  refine ⟨?_, ?_, ?_, ?_⟩
  · intro g hg
    simp only [slotCount] at hg ⊢
    simp only [hcount]
    obtain ⟨he, hc0, hc1⟩ := hI g hg
    simp only [slotCount] at he
    by_cases hgf : g = f
    · subst hgf
      rw [Function.update_same, if_pos rfl]
      refine ⟨by omega, fun hh => absurd hh (by omega), fun _ => hccf⟩
    · rw [Function.update_noteq hgf, if_neg hgf]
      exact ⟨by omega, hc0, hc1⟩
  · simpa using hlen
  · intro g hg
    simp only [slotCount] at hg ⊢
    have hgf : g ≠ f := by
      intro hh
      subst hh
      rw [hg] at haf
      exact Bool.noConfusion haf
    obtain ⟨h1, h2, h3, h4⟩ := hinert g hg
    simp only [slotCount] at h4
    rw [Function.update_noteq hgf]
    rw [hcount g, if_neg hgf]
    exact ⟨h1, h2, h3, by omega⟩
  · exact hbelow

theorem step_dup {st : vfs_data} (fd newfd flags : Int)
    (hI : RefInvariant st) (hW : TableWF st) :
    RefInvariant (vfs_dup st fd newfd flags).2 ∧
    TableWF (vfs_dup st fd newfd flags).2 := by
  obtain ⟨hlen, hinert, hbelow⟩ := hW
  rcases hget : vfs_get st fd with _ | f
  · simp only [vfs_dup, hget]
    exact ⟨hI, hlen, hinert, hbelow⟩
  have hbound : ¬(fd < 0 ∨ fd ≥ (MAX_FD_COUNT : Int)) := by
    intro hcon
    rw [vfs_get, if_pos hcon] at hget
    exact Option.noConfusion hget
  have hf' : st.fds.getD fd.toNat none = some f := by
    rw [vfs_get, if_neg hbound] at hget
    exact hget
  have haf : st.allocated f = true :=
    allocated_of_slot ⟨hlen, hinert, hbelow⟩ hf'
  obtain ⟨hef, hcf0, hcf1⟩ := hI f haf
  simp only [slotCount] at hef
  have hslotf : 1 ≤ countF st.fds f := countF_pos hf'
  have hccf : st.closeCalls f = 0 := hcf1 (by omega)
  by_cases hm1 : newfd = -1
  · rcases hFE : firstEmpty st.fds with _ | i
    · simp only [vfs_dup, hget, if_pos hm1, hFE]
      exact ⟨hI, hlen, hinert, hbelow⟩
    · rcases firstEmpty_some st.fds i hFE with ⟨hilen, hiempty⟩
      simp only [vfs_dup, hget, if_pos hm1, hFE]
      exact dup_install f i _ hI ⟨hlen, hinert, hbelow⟩ hiempty hilen haf hccf
  by_cases hrej : newfd = fd ∨ newfd < 0 ∨ newfd ≥ (MAX_FD_COUNT : Int)
  · simp only [vfs_dup, hget, if_neg hm1, if_pos hrej]
    exact ⟨hI, hlen, hinert, hbelow⟩
  push_neg at hrej
  obtain ⟨hnefd, hn0, hnM⟩ := hrej
  have hcond : ¬(newfd = fd ∨ newfd < 0 ∨ newfd ≥ (MAX_FD_COUNT : Int)) := by
    push_neg
    exact ⟨hnefd, hn0, hnM⟩
  have hnlen : newfd.toNat < st.fds.length := by
    rw [hlen]
    omega
  rcases hocc : st.fds.getD newfd.toNat none with _ | g
  · -- target slot empty
    simp only [vfs_dup, hget, if_neg hm1, if_neg hcond, hocc, Option.isSome_none,
      Bool.false_eq_true, if_neg (by simp : ¬False)]
    exact dup_install f newfd.toNat _ hI ⟨hlen, hinert, hbelow⟩ hocc hnlen haf hccf
  · -- target slot occupied by g: vfs_close, then install
    have hclose := step_close newfd.toNat hI ⟨hlen, hinert, hbelow⟩
      (by simp only [opOk]; rw [hocc]; rfl)
    have hfds1 : (vfs_close st newfd.toNat).fds = st.fds.set newfd.toNat none := by
      simp only [vfs_close, hocc, releaseRef_fds]
    have hallocs1 : (vfs_close st newfd.toNat).allocated = st.allocated := by
      simp only [vfs_close, hocc, releaseRef_allocated]
    have hccs1 : (vfs_close st newfd.toNat).closeCalls =
        (if st.ref g - 1 = 0
         then Function.update st.closeCalls g (st.closeCalls g + 1)
         else st.closeCalls) := by
      simp only [vfs_close, hocc, releaseRef_closeCalls]
    have hccf1 : (vfs_close st newfd.toNat).closeCalls f = 0 := by
      rw [hccs1]
      by_cases hgf : g = f
      · subst hgf
        have hfd_ne : fd.toNat ≠ newfd.toNat := by omega
        have h2 := countF_two hf' hocc hfd_ne
        rw [if_neg (by omega)]
        exact hccf
      · by_cases hz : st.ref g - 1 = 0
        · rw [if_pos hz, Function.update_noteq (fun hh => hgf hh.symm)]
          exact hccf
        · rw [if_neg hz]
          exact hccf
    have hempty1 : (vfs_close st newfd.toNat).fds.getD newfd.toNat none = none := by
      rw [hfds1]
      exact getD_set_self st.fds newfd.toNat none hnlen
    have hlen1 : newfd.toNat < (vfs_close st newfd.toNat).fds.length := by
      rw [hfds1]
      simpa using hnlen
    have haf1 : (vfs_close st newfd.toNat).allocated f = true := by
      rw [hallocs1]
      exact haf
    simp only [vfs_dup, hget, if_neg hm1, if_neg hcond, hocc, Option.isSome_some,
      eq_self_iff_true, if_true]
    exact dup_install f newfd.toNat _ hclose.1 hclose.2 hempty1 hlen1 haf1 hccf1

theorem step_op {st : vfs_data} (op : VfsOp)
    (hI : RefInvariant st) (hW : TableWF st) (hok : opOk st op = true) :
    RefInvariant (applyOp st op) ∧ TableWF (applyOp st op) := by
  cases op with
  | alloc => exact step_alloc hI hW
  | store f c => exact step_store f c hI hW hok
  | close fd => exact step_close fd hI hW hok
  | dup fd newfd flags => exact step_dup fd newfd flags hI hW
  | ref f => exact step_refop f hI hW hok
  | release f => exact step_release f hI hW hok

theorem fold_ops : ∀ (ops : List VfsOp) (st : vfs_data),
    RefInvariant st → TableWF st → opsOk st ops = true →
    RefInvariant (applyOps st ops) ∧ TableWF (applyOps st ops) := by
  intro ops
  induction ops with
  | nil => intro st hI hW _; exact ⟨hI, hW⟩
  | cons op ops ih =>
    intro st hI hW hok
    simp only [opsOk, Bool.and_eq_true] at hok
    obtain ⟨h1, h2⟩ := hok
    have hstep := step_op op hI hW h1
    exact ih _ hstep.1 hstep.2 h2

theorem init_inv : RefInvariant vfs_init_state ∧ TableWF vfs_init_state := by
  refine ⟨?_, ?_, ?_, ?_⟩
  · intro f hf
    simp [vfs_init_state] at hf
  · simp [vfs_init_state]
  · intro f _
    refine ⟨rfl, rfl, rfl, ?_⟩
    simp only [slotCount, countF, vfs_init_state]
    rw [List.countP_eq_zero]
    intro a ha
    simp [List.eq_of_mem_replicate ha]
  · intro f hf
    simp [vfs_init_state] at hf

/-- C8.  For every sequence of well-formed `alloc`/`store`/`close`/
`dup`/`ref`/`release` operations against the (initially empty)
descriptor table, every allocated file's refcount equals the number of
table slots holding it plus the number of outstanding borrowed
references, and the file's `close` operation has been invoked exactly
once if its refcount has reached zero and not at all otherwise. -/
theorem vfs_refcount_invariant (ops : List VfsOp)
    (h : opsOk vfs_init_state ops = true) :
    RefInvariant (applyOps vfs_init_state ops) :=
  (fold_ops ops vfs_init_state init_inv.1 init_inv.2 h).1

set_option maxRecDepth 8192 in
theorem vfs_refcount_invariant_witness :
    RefInvariant (applyOps vfs_init_state
      [VfsOp.alloc, VfsOp.store 0 true, VfsOp.ref 0, VfsOp.dup 0 (-1) 0,
       VfsOp.release 0, VfsOp.close 0, VfsOp.close 1]) :=
  vfs_refcount_invariant
    [VfsOp.alloc, VfsOp.store 0 true, VfsOp.ref 0, VfsOp.dup 0 (-1) 0,
     VfsOp.release 0, VfsOp.close 0, VfsOp.close 1] (by decide)

/- ### C10: pipe2 error atomicity -/

/-- C10.  `sys_pipe2` is atomic on failure.  With the two pipe files
fresh (ids `st.nextId` and `st.nextId + 1`): unsupported flags give
`-EINVAL` with the state untouched; an invalid `pipefd` pointer gives
`-EFAULT` with the state untouched; and on the successful-allocation
path every error return is `-EMFILE`, leaves the descriptor table
exactly as it was — in particular no slot holds either pipe file —
and both pipe files are fully released (refcount 0) with their `close`
operation invoked exactly once each. -/
theorem sys_pipe2_error_atomic (st : vfs_data) (flags : Int) (pv : Bool)
    (hfresh : ∀ j g, st.fds.getD j none = some g → g < st.nextId)
    (href0 : st.ref st.nextId = 0) (href1 : st.ref (st.nextId + 1) = 0)
    (hcc0 : st.closeCalls st.nextId = 0)
    (hcc1 : st.closeCalls (st.nextId + 1) = 0) :
    (land32 flags O_DIRECT ≠ 0 ∨ land32 flags O_NONBLOCK ≠ 0 →
      sys_pipe2 st flags pv none = (-EINVAL, st, none)) ∧
    (land32 flags O_DIRECT = 0 → land32 flags O_NONBLOCK = 0 → pv = false →
      sys_pipe2 st flags pv none = (-EFAULT, st, none)) ∧
    (land32 flags O_DIRECT = 0 → land32 flags O_NONBLOCK = 0 → pv = true →
      (sys_pipe2 st flags pv none).1 < 0 →
      (sys_pipe2 st flags pv none).1 = -EMFILE ∧
      (sys_pipe2 st flags pv none).2.1.fds = st.fds ∧
      (sys_pipe2 st flags pv none).2.1.ref st.nextId = 0 ∧
      (sys_pipe2 st flags pv none).2.1.ref (st.nextId + 1) = 0 ∧
      (sys_pipe2 st flags pv none).2.1.closeCalls st.nextId = 1 ∧
      (sys_pipe2 st flags pv none).2.1.closeCalls (st.nextId + 1) = 1 ∧
      (∀ j, (sys_pipe2 st flags pv none).2.1.fds.getD j none ≠ some st.nextId ∧
        (sys_pipe2 st flags pv none).2.1.fds.getD j none ≠
          some (st.nextId + 1))) := by
  have hne1 : st.nextId + 1 ≠ st.nextId := Nat.succ_ne_self st.nextId
  have hne2 : st.nextId ≠ st.nextId + 1 := (Nat.succ_ne_self st.nextId).symm
  refine ⟨?_, ?_, ?_⟩
  · intro h
    simp only [sys_pipe2, if_pos h]
  · intro h1 h2 hpv
    subst hpv
    simp only [sys_pipe2, h1, h2]
    simp
  · intro h1 h2 hpv hlt
    have hflags : ¬(land32 flags O_DIRECT ≠ 0 ∨ land32 flags O_NONBLOCK ≠ 0) := by
      simp [h1, h2]
    have hnofds : ∀ j, st.fds.getD j none ≠ some st.nextId ∧
        st.fds.getD j none ≠ some (st.nextId + 1) := by
      intro j
      refine ⟨fun hj => ?_, fun hj => ?_⟩
      · exact absurd (hfresh j st.nextId hj) (lt_irrefl _)
      · exact absurd (hfresh j (st.nextId + 1) hj)
          (Nat.lt_asymm (Nat.lt_succ_self _))
    rcases hFE : firstEmpty st.fds with _ | i
    · -- first vfs_store_file fails: both files released
      simp only [sys_pipe2, if_neg hflags, hpv, pipe_alloc, vfs_store_file, hFE]
      simp [vfs_release, releaseRef, EMFILE, Function.update_same,
        Function.update_noteq hne1, Function.update_noteq hne2,
        href0, href1, hcc0, hcc1]
      simpa using hnofds
    · -- first store succeeds at slot i
      rcases firstEmpty_some st.fds i hFE with ⟨hilen, hiempty⟩
      have hi0 : ¬((i : Int) < 0) := by omega
      rcases hFE2 : firstEmpty (st.fds.set i (some st.nextId)) with _ | i2
      · -- second vfs_store_file fails: stored fd closed, write file released
        simp only [sys_pipe2, if_neg hflags, hpv, pipe_alloc, vfs_store_file,
          hFE, hFE2, if_neg hi0]
        simp [vfs_close, vfs_release, releaseRef, EMFILE, Int.toNat_natCast,
          List.getElem?_set_self hilen,
          Function.update_same, Function.update_noteq hne1,
          Function.update_noteq hne2, href0, href1, hcc0, hcc1,
          List.set_set, set_none_of_getD_none hiempty]
        simpa using hnofds
      · -- both stores succeed: return value 0, not an error
        have hi20 : ¬((i2 : Int) < 0) := by omega
        simp only [sys_pipe2, if_neg hflags, hpv, pipe_alloc, vfs_store_file,
          hFE, hFE2, if_neg hi0, if_neg hi20] at hlt
        simp at hlt

theorem sys_pipe2_error_atomic_witness :
    sys_pipe2 vfs_init_state O_DIRECT true none =
      (-EINVAL, vfs_init_state, none) :=
  (sys_pipe2_error_atomic vfs_init_state O_DIRECT true
      (fun j g h => absurd (List.eq_of_mem_replicate (getD_mem_of_some h))
        (fun hh => Option.noConfusion hh))
      rfl rfl rfl rfl).1 (Or.inl (by decide))

/-- C9, counterexample.  Idempotence of `normalize("/", ·)` fails at
the concrete path `".."`: the first pass pops the root and yields the
empty string, which the second pass turns back into `"/"`. -/
theorem normalize_path_root_not_idempotent :
    normalize_path "/".toList "..".toList ≠
      normalize_path "/".toList (normalize_path "/".toList "..".toList) := by
  decide
